import Mathlib

/-!
Verification development for the chat streaming translation engine
(`src/services/chat.ts`): header filtering, the per-segment buffer
reconciler, the thinking-block framer, the shared consumption loop, and
the two sinks (`streamChatGenerator` and `nonStreamChat`).

JavaScript strings are embedded as `List Char` (`Str`): `startsWith` is
the prefix test `<+:`, `slice(n)` is `List.drop n`, `+` is `++`, and
`length` is `List.length`.  Decoded socket payloads are embedded as an
inductive event type (`WsEvent`): a well-formed outer frame is either an
`update` (whose nested buffer JSON may itself be malformed) or a `state`
carrying the `inProgress` flag; outer parse failures and unknown outer
types are a no-op event; socket close and error are terminal iterator
events.  SSE chunks are embedded structurally (`SSEItem`) rather than as
serialized JSON text: a chunk keeps its id, model, content and
finish_reason fields; the `data: [DONE]` sentinel is `SSEItem.done`.
The wall-clock `created` timestamp is not modelled.
-/

/-- JavaScript strings, embedded as lists of characters. -/
abbrev Str := List Char

/-- Reconciliation mode for one segment type (`modeByType` values). -/
inductive Mode
  | snapshot
  | delta
deriving DecidableEq

/-- Per-segment reconciliation state: `modeByType[t]` (absent = not yet
determined) and `prevContentByType[t]` (absent = `""`, merged here). -/
structure RecState where
  mode : Option Mode
  prev : Str
deriving DecidableEq

/-- The two segment types the code reacts to (`bufferData.type` values
`"chat"` and `"thinking"`); every other nested type is skipped. -/
inductive SegType
  | chat
  | thinking
deriving DecidableEq

/-- The per-session mutable state of the consumption loop, shared in shape
by `streamChatGenerator` and `nonStreamChat`: `receivedUpdate`,
`lastBufferType`, `inThinkingBlock`, and the two per-segment records. -/
structure LoopState where
  receivedUpdate : Bool
  lastBufferType : Option SegType
  inThinkingBlock : Bool
  chatRec : RecState
  thinkingRec : RecState
deriving DecidableEq

/-- Read `modeByType[t]` / `prevContentByType[t]` for a segment type. -/
def getRec (s : LoopState) : SegType → RecState
  | SegType.chat => s.chatRec
  | SegType.thinking => s.thinkingRec

/-- Write `modeByType[t]` / `prevContentByType[t]` for a segment type. -/
def setRec (s : LoopState) : SegType → RecState → LoopState
  | SegType.chat, r => { s with chatRec := r }
  | SegType.thinking, r => { s with thinkingRec := r }

/-- Result of `JSON.parse(data.buffer)`: either the nested JSON fails to
parse, or it yields a `type` string and a `chat.content` string (the code
reads `bufferData.chat?.content || ""`, so a missing content is `""`,
i.e. `[]`). -/
inductive BufferParse
  | malformed
  | parsed (bufferType : Str) (content : Str)
deriving DecidableEq

/-- One event as seen by the consumption loop: a decoded `update` frame,
a decoded `state` frame (`data.state || {}` makes a missing `inProgress`
falsy, i.e. `false`), any other message (unknown outer `type` or outer
JSON parse failure — both are skipped identically), and the terminal
iterator events for socket close and socket error. -/
inductive WsEvent
  | update (buffer : BufferParse)
  | state (inProgress : Bool)
  | otherMsg
  | close
  | error
deriving DecidableEq

/-- Literal `"chat"`. -/
def chatT : Str := "chat".toList

/-- Literal `"thinking"`. -/
def thinkingT : Str := "thinking".toList

/-- The guard `bufferType === "chat" || bufferType === "thinking"`,
returning which of the two segment keys the update addresses. -/
def segOfStr (s : Str) : Option SegType :=
  if s = chatT then some SegType.chat
  else if s = thinkingT then some SegType.thinking
  else none

/-- Literal `"<think>"`, the open-marker text. -/
def thinkOpen : Str := "<think>".toList

/-- Literal `"</think>"`, the close-marker text. -/
def thinkClose : Str := "</think>".toList

/-- A frame emitted by the loop body: its text, plus a ghost flag
recording whether it was produced by the thinking-block framer (a marker
yield) rather than by the reconciler (a delta yield). -/
structure Frame where
  content : Str
  isMarker : Bool
deriving DecidableEq

/-- The text of a frame list, concatenated in emission order. -/
def framesText (fs : List Frame) : Str :=
  (fs.map Frame.content).flatten

/-- The buffer reconciler for one segment type, translated from the
identical block in both sinks: determine `mode` on the first non-empty
content following a recorded `previousContent` (`snapshot` iff the new
content starts with it), then compute the emitted delta and the new
record.  `content.slice(prev.length)` is `content.drop prev.length`. -/
def reconcile (r : RecState) (content : Str) : Str × RecState :=
  let mode : Option Mode :=
    if r.mode = none ∧ r.prev ≠ [] then
      if r.prev <+: content then some Mode.snapshot else some Mode.delta
    else r.mode
  match mode with
  | some Mode.snapshot => (content.drop r.prev.length, ⟨some Mode.snapshot, content⟩)
  | some Mode.delta => (content, ⟨some Mode.delta, r.prev ++ content⟩)
  | none => (content, ⟨none, content⟩)

/-- The thinking-block framer on a segment-type switch, for the streaming
sink (frames): close the open thinking block if any, open one if the new
type is `thinking`, and record `lastBufferType`.  No switch, no frames. -/
def markerPhase (s0 : LoopState) (bt : SegType) : List Frame × LoopState :=
  if some bt ≠ s0.lastBufferType then
    if s0.inThinkingBlock then
      if bt = SegType.thinking then
        ([Frame.mk thinkClose true, Frame.mk thinkOpen true],
         { s0 with inThinkingBlock := true, lastBufferType := some bt })
      else
        ([Frame.mk thinkClose true],
         { s0 with inThinkingBlock := false, lastBufferType := some bt })
    else
      if bt = SegType.thinking then
        ([Frame.mk thinkOpen true],
         { s0 with inThinkingBlock := true, lastBufferType := some bt })
      else
        ([], { s0 with lastBufferType := some bt })
  else ([], s0)

/-- One non-empty `chat`/`thinking` update in `streamChatGenerator`:
marker phase, then the reconciler; the delta is yielded only when
non-empty, but the record is updated regardless. -/
def segStep (s0 : LoopState) (bt : SegType) (content : Str) : List Frame × LoopState :=
  if content = [] then ([], s0)
  else
    let m := markerPhase s0 bt
    let rc := reconcile (getRec m.2 bt) content
    let s2 := setRec m.2 bt rc.2
    (m.1 ++ (if rc.1 = [] then [] else [Frame.mk rc.1 false]), s2)

/-- Why the consumption loop stopped: socket close, socket error, or the
terminal `state` signal. -/
inductive StopReason
  | closed
  | errored
  | terminal
deriving DecidableEq

/-- Outcome of one loop iteration: continue with emitted frames and a new
state, or break out of the loop. -/
inductive StepOut
  | cont (frames : List Frame) (s : LoopState)
  | halt (frames : List Frame) (s : LoopState) (reason : StopReason)
deriving DecidableEq

/-- The body of the `for await` loop in `streamChatGenerator`: `close`
and `error` events break; an `update` sets `receivedUpdate` before the
nested buffer parse and feeds the reconciler only for a `chat`/`thinking`
type; a `state` with falsy `inProgress` breaks only when
`receivedUpdate` is set, closing an open thinking block first. -/
def stepEvent (s : LoopState) (e : WsEvent) : StepOut :=
  match e with
  | WsEvent.close => StepOut.halt [] s StopReason.closed
  | WsEvent.error => StepOut.halt [] s StopReason.errored
  | WsEvent.otherMsg => StepOut.cont [] s
  | WsEvent.update b =>
    let s1 := { s with receivedUpdate := true }
    match b with
    | BufferParse.malformed => StepOut.cont [] s1
    | BufferParse.parsed btStr content =>
      match segOfStr btStr with
      | none => StepOut.cont [] s1
      | some bt =>
        let r := segStep s1 bt content
        StepOut.cont r.1 r.2
  | WsEvent.state inProgress =>
    if inProgress = false ∧ s.receivedUpdate = true then
      if s.inThinkingBlock then
        StepOut.halt [Frame.mk thinkClose true]
          { s with inThinkingBlock := false } StopReason.terminal
      else StepOut.halt [] s StopReason.terminal
    else StepOut.cont [] s

/-- The consumption loop of `streamChatGenerator` over a finite event
sequence: emitted frames in order, the final loop state, and the stop
reason (`none` when the sequence ran out with the loop still waiting). -/
def runLoop (s : LoopState) : List WsEvent → List Frame × LoopState × Option StopReason
  | [] => ([], s, none)
  | e :: es =>
    match stepEvent s e with
    | StepOut.halt fs s' r => (fs, s', some r)
    | StepOut.cont fs s' =>
      let t := runLoop s' es
      (fs ++ t.1, t.2.1, t.2.2)

/-- The loop state at session start: nothing received, no segment type
seen, outside any thinking block, both records empty. -/
def initState : LoopState :=
  ⟨false, none, false, ⟨none, []⟩, ⟨none, []⟩⟩

/-- An update event carrying a well-formed `chat` buffer. -/
def chatUpdate (c : Str) : WsEvent :=
  WsEvent.update (BufferParse.parsed chatT c)

/-- An update event carrying a well-formed `thinking` buffer. -/
def thinkUpdate (c : Str) : WsEvent :=
  WsEvent.update (BufferParse.parsed thinkingT c)

/-- The thinking-block framer on a segment-type switch, for the aggregate
sink (`nonStreamChat`), which appends marker text to `fullContent`
instead of yielding frames. -/
def markerPhaseNS (s0 : LoopState) (bt : SegType) : Str × LoopState :=
  if some bt ≠ s0.lastBufferType then
    if s0.inThinkingBlock then
      if bt = SegType.thinking then
        (thinkClose ++ thinkOpen,
         { s0 with inThinkingBlock := true, lastBufferType := some bt })
      else
        (thinkClose,
         { s0 with inThinkingBlock := false, lastBufferType := some bt })
    else
      if bt = SegType.thinking then
        (thinkOpen,
         { s0 with inThinkingBlock := true, lastBufferType := some bt })
      else
        ([], { s0 with lastBufferType := some bt })
  else ([], s0)

/-- One non-empty `chat`/`thinking` update in `nonStreamChat`: the same
marker phase and reconciler, but the output is the text appended to
`fullContent`. -/
def segStepNS (s0 : LoopState) (bt : SegType) (content : Str) : Str × LoopState :=
  if content = [] then ([], s0)
  else
    let m := markerPhaseNS s0 bt
    let rc := reconcile (getRec m.2 bt) content
    let s2 := setRec m.2 bt rc.2
    (m.1 ++ (if rc.1 = [] then [] else rc.1), s2)

/-- Outcome of one loop iteration in `nonStreamChat`: text appended to
`fullContent` plus the new state, or a break. -/
inductive StepOutNS
  | cont (out : Str) (s : LoopState)
  | halt (out : Str) (s : LoopState) (reason : StopReason)
deriving DecidableEq

/-- The body of the `for await` loop in `nonStreamChat`.  Its `state`
branch is nested (`if (!state.inProgress) { if (receivedUpdate) ... }`)
but stops under the same condition as the streaming sink. -/
def stepEventNS (s : LoopState) (e : WsEvent) : StepOutNS :=
  match e with
  | WsEvent.close => StepOutNS.halt [] s StopReason.closed
  | WsEvent.error => StepOutNS.halt [] s StopReason.errored
  | WsEvent.otherMsg => StepOutNS.cont [] s
  | WsEvent.update b =>
    let s1 := { s with receivedUpdate := true }
    match b with
    | BufferParse.malformed => StepOutNS.cont [] s1
    | BufferParse.parsed btStr content =>
      match segOfStr btStr with
      | none => StepOutNS.cont [] s1
      | some bt =>
        let r := segStepNS s1 bt content
        StepOutNS.cont r.1 r.2
  | WsEvent.state inProgress =>
    if inProgress = false then
      if s.receivedUpdate = true then
        if s.inThinkingBlock then
          StepOutNS.halt thinkClose
            { s with inThinkingBlock := false } StopReason.terminal
        else StepOutNS.halt [] s StopReason.terminal
      else StepOutNS.cont [] s
    else StepOutNS.cont [] s

/-- The consumption loop of `nonStreamChat`: the accumulated
`fullContent`, the final loop state, and the stop reason. -/
def runLoopNS (s : LoopState) : List WsEvent → Str × LoopState × Option StopReason
  | [] => ([], s, none)
  | e :: es =>
    match stepEventNS s e with
    | StepOutNS.halt out s' r => (out, s', some r)
    | StepOutNS.cont out s' =>
      let t := runLoopNS s' es
      (out ++ t.1, t.2.1, t.2.2)

/-- An SSE stream element: a chunk built by `createSSEChunk` (id, model,
delta content, finish_reason), or the literal `data: [DONE]` sentinel. -/
inductive SSEItem
  | chunk (id : Str) (model : Str) (content : Str) (finishReason : Option Str)
  | done
deriving DecidableEq

/-- Embeds `createSSEChunk`: builds one `chat.completion.chunk` envelope with
the given id, model, delta content and finish_reason (the nondeterministic
`created` timestamp is not modelled). -/
def createSSEChunk (requestId model content : Str) (finishReason : Option Str) : SSEItem :=
  SSEItem.chunk requestId model content finishReason

/-- Literal `"stop"`. -/
def stopText : Str := "stop".toList

/-- Literal `"错误: "`, the prefix of the in-band error chunk of the
streaming sink. -/
def errText : Str := "错误: ".toList

/-- Embeds `streamChatGenerator` as the sequence of SSE items it emits, given
whether reaching the socket open state failed (the `onerror` rejection
that makes the whole `try` block throw, with message `e`) and the decoded
event sequence.  The priming empty chunk is yielded before the `try`;
on success the loop frames are followed by the finish chunk and the
sentinel; on the exception the catch yields one chunk carrying both the
error text and finish_reason `"stop"`, then the sentinel. -/
def streamChatItems (requestId model : Str) (openErr : Option Str)
    (events : List WsEvent) : List SSEItem :=
  createSSEChunk requestId model [] none ::
    match openErr with
    | some e =>
      [createSSEChunk requestId model (errText ++ e) (some stopText), SSEItem.done]
    | none =>
      ((runLoop initState events).1.map
        (fun f => createSSEChunk requestId model f.content none)) ++
        [createSSEChunk requestId model [] (some stopText), SSEItem.done]

/-- Literal `"处理请求失败: "`, the prefix of the error `nonStreamChat`
rethrows from its catch block. -/
def failText : Str := "处理请求失败: ".toList

/-- Embeds `nonStreamChat` as a result value: a rejection reaches the caller
only through the catch block, which rethrows failures raised before the
message loop — the socket failing to reach its open state, or the
awaited trigger `fetch` throwing (its non-2xx status is only logged).
Once the loop runs, the accumulated `fullContent` is returned whatever
stops the loop. -/
def nonStreamChatResult (openErr fetchErr : Option Str)
    (events : List WsEvent) : Except Str Str :=
  match openErr with
  | some e => Except.error (failText ++ e)
  | none =>
    match fetchErr with
    | some e => Except.error (failText ++ e)
    | none => Except.ok (runLoopNS initState events).1

/-- Lowercasing of a JavaScript string (`toLowerCase` on header names;
ASCII-faithful). -/
def lowerStr (s : Str) : Str := s.map Char.toLower

/-- The set `ALLOWED_HEADER_NAMES`: the fixed allow-list of header names,
matched against the lowercased name. -/
def ALLOWED_HEADER_NAMES : List Str :=
  ["authorization", "content-type", "accept", "openai-organization",
   "openai-project", "idempotency-key", "openai-beta", "x-request-id",
   "user-agent", "accept-encoding", "accept-language",
   "content-length"].map String.toList

/-- The list `ALLOWED_HEADER_PREFIXES`: allowed name beginnings, matched against
the lowercased name. -/
def ALLOWED_HEADER_PREFIXES : List Str :=
  ["openai-", "x-openai-"].map String.toList

/-- Embeds `isAllowedHeader`: exact allow-list membership of the lowercased
name, or one of the allowed beginnings. -/
def isAllowedHeader (headerName : Str) : Bool :=
  let nameLower := lowerStr headerName
  ALLOWED_HEADER_NAMES.contains nameLower ||
    ALLOWED_HEADER_PREFIXES.any (fun p => p.isPrefixOf nameLower)

/-- Embeds `headers.entries()` on a web `Headers` object: per the fetch
standard, iteration yields header names byte-lowercased.  A `Headers`
value is embedded as its name/value pair list. -/
def headersEntries (headers : List (Str × Str)) : List (Str × Str) :=
  headers.map (fun p => (lowerStr p.1, p.2))

/-- Embeds `filterAllowedHeaders`: keep exactly the entries whose (already
lowercased) name passes `isAllowedHeader`; the rest are dropped and only
logged. -/
def filterAllowedHeaders (headers : List (Str × Str)) : List (Str × Str) :=
  (headersEntries headers).filter (fun p => isAllowedHeader p.1)

/-- JavaScript object-literal key insertion, as performed by
`{ ...spread, key: value }`: an exactly matching existing key is
overwritten in place, otherwise the entry is appended. -/
def recordSet (r : List (Str × Str)) (k v : Str) : List (Str × Str) :=
  if r.any (fun p => decide (p.1 = k)) then
    r.map (fun p => if p.1 = k then (k, v) else p)
  else r ++ [(k, v)]

/-- The headers record built for the trigger `POST` in both sinks:
`{ ...filteredClientHeaders, Authorization: ..., "Content-Type": ...,
Origin: ..., Referer: ... }`, with `ORIGIN` passed in as a parameter
(it comes from config, outside this module). -/
def triggerHeaders (clientHeaders : Option (List (Str × Str)))
    (jwtToken chatHistoryId origin2 : Str) : List (Str × Str) :=
  let filtered :=
    match clientHeaders with
    | some h => filterAllowedHeaders h
    | none => []
  recordSet (recordSet (recordSet (recordSet filtered
    ("Authorization".toList) ("Bearer ".toList ++ jwtToken))
    ("Content-Type".toList) ("application/json".toList))
    ("Origin".toList) origin2)
    ("Referer".toList) (origin2 ++ "/".toList ++ chatHistoryId)

/-- Whether an event is an `update` message (the only events that set
`receivedUpdate`). -/
def isUpdateEvent : WsEvent → Bool
  | WsEvent.update _ => true
  | _ => false

/-- One step of the marker-balance scan: `some b` means the marker
frames seen so far are alternating and well-nested with `b` recording
whether a thinking block is currently open; `none` means the marker
sequence is ill-formed.  Non-marker frames are ignored. -/
def markerStep (acc : Option Bool) (f : Frame) : Option Bool :=
  match acc with
  | none => none
  | some inside =>
    if f.isMarker then
      if f.content = thinkOpen then (if inside then none else some true)
      else if f.content = thinkClose then (if inside then some false else none)
      else none
    else some inside

/-- Marker-balance scan of a frame list starting from nesting state `b`;
`markerScanB false fs = some false` says the marker frames of `fs` are
balanced: alternating open/close with every open matched. -/
def markerScanB (b : Bool) (fs : List Frame) : Option Bool :=
  fs.foldl markerStep (some b)

/-- The non-control frames of an SSE item list, as their content texts:
chunks with no finish_reason and non-empty content.  This drops the
priming empty chunk, the finish chunk and the `[DONE]` sentinel, keeping
exactly the delta and marker frames. -/
def nonControlTexts : List SSEItem → List Str
  | [] => []
  | SSEItem.chunk _ _ c none :: rest =>
    if c = [] then nonControlTexts rest else c :: nonControlTexts rest
  | SSEItem.chunk _ _ _ (some _) :: rest => nonControlTexts rest
  | SSEItem.done :: rest => nonControlTexts rest

/-- The strictly-growing prefix-compatibility condition of the snapshot
scenario: each content extends the previous one properly. -/
def growingChain : List Str → Bool
  | a :: b :: r => (decide (a <+: b) && decide (a ≠ b)) && growingChain (b :: r)
  | _ => true

/-! ### Basic lemmas about the embedding -/

theorem runLoop_nil (s : LoopState) : runLoop s [] = ([], s, none) := rfl

theorem runLoop_cons (s : LoopState) (e : WsEvent) (es : List WsEvent) :
    runLoop s (e :: es) =
      match stepEvent s e with
      | StepOut.halt fs s' r => (fs, s', some r)
      | StepOut.cont fs s' =>
        let t := runLoop s' es
        (fs ++ t.1, t.2.1, t.2.2) := rfl

theorem runLoop_cons_cont (s : LoopState) (e : WsEvent) (es : List WsEvent)
    (fs : List Frame) (s1 : LoopState) (h : stepEvent s e = StepOut.cont fs s1) :
    runLoop s (e :: es) =
      (fs ++ (runLoop s1 es).1, (runLoop s1 es).2.1, (runLoop s1 es).2.2) := by
  rw [runLoop_cons, h]

theorem runLoop_cons_halt (s : LoopState) (e : WsEvent) (es : List WsEvent)
    (fs : List Frame) (s1 : LoopState) (r : StopReason)
    (h : stepEvent s e = StepOut.halt fs s1 r) :
    runLoop s (e :: es) = (fs, s1, some r) := by
  rw [runLoop_cons, h]

theorem runLoopNS_nil (s : LoopState) : runLoopNS s [] = ([], s, none) := rfl

theorem runLoopNS_cons (s : LoopState) (e : WsEvent) (es : List WsEvent) :
    runLoopNS s (e :: es) =
      match stepEventNS s e with
      | StepOutNS.halt out s' r => (out, s', some r)
      | StepOutNS.cont out s' =>
        let t := runLoopNS s' es
        (out ++ t.1, t.2.1, t.2.2) := rfl

theorem framesText_nil : framesText [] = [] := rfl

theorem framesText_cons (f : Frame) (fs : List Frame) :
    framesText (f :: fs) = f.content ++ framesText fs := rfl

theorem framesText_append (fs gs : List Frame) :
    framesText (fs ++ gs) = framesText fs ++ framesText gs := by
  simp [framesText]

theorem getRec_setRec_same (s : LoopState) (bt : SegType) (r : RecState) :
    getRec (setRec s bt r) bt = r := by
  cases bt <;> simp [getRec, setRec]

theorem getRec_setRec_other (s : LoopState) (bt bt' : SegType) (r : RecState)
    (h : bt' ≠ bt) : getRec (setRec s bt r) bt' = getRec s bt' := by
  cases bt <;> cases bt' <;> simp_all [getRec, setRec]

theorem getRec_markerPhase (s : LoopState) (bt bt' : SegType) :
    getRec (markerPhase s bt).2 bt' = getRec s bt' := by
  unfold markerPhase
  split <;> [skip; rfl]
  split <;> split <;> cases bt' <;> simp [getRec]

theorem receivedUpdate_markerPhase (s : LoopState) (bt : SegType) :
    ((markerPhase s bt).2).receivedUpdate = s.receivedUpdate := by
  unfold markerPhase
  split <;> [skip; rfl]
  split <;> split <;> simp

theorem receivedUpdate_setRec (s : LoopState) (bt : SegType) (r : RecState) :
    (setRec s bt r).receivedUpdate = s.receivedUpdate := by
  cases bt <;> simp [setRec]

theorem receivedUpdate_segStep (s : LoopState) (bt : SegType) (c : Str) :
    ((segStep s bt c).2).receivedUpdate = s.receivedUpdate := by
  unfold segStep
  split
  · rfl
  · simp [receivedUpdate_setRec, receivedUpdate_markerPhase]

theorem stepEvent_cont_receivedUpdate (s : LoopState) (e : WsEvent)
    (fs : List Frame) (s1 : LoopState) (h : stepEvent s e = StepOut.cont fs s1) :
    s1.receivedUpdate = (s.receivedUpdate || isUpdateEvent e) := by
  cases e with
  | close => simp [stepEvent] at h
  | error => simp [stepEvent] at h
  | otherMsg =>
    simp [stepEvent] at h
    simp [← h.2, isUpdateEvent]
  | update b =>
    cases b with
    | malformed =>
      simp [stepEvent] at h
      simp [← h.2, isUpdateEvent]
    | parsed btStr content =>
      rcases hseg : segOfStr btStr with _ | bt <;>
        simp [stepEvent, hseg] at h <;>
        simp [← h.2, isUpdateEvent, receivedUpdate_segStep]
  | state ip =>
    by_cases hc : ip = false ∧ s.receivedUpdate = true
    · by_cases ht : s.inThinkingBlock = true <;> simp [stepEvent, hc, ht] at h
    · simp [stepEvent, hc] at h
      simp [← h.2, isUpdateEvent]

theorem runLoop_receivedUpdate (es : List WsEvent) : ∀ s : LoopState,
    (runLoop s es).2.2 = none →
    ((runLoop s es).2.1).receivedUpdate = (s.receivedUpdate || es.any isUpdateEvent) := by
  induction es with
  | nil => intro s _; simp [runLoop]
  | cons e es ih =>
    intro s hnone
    rw [runLoop_cons] at hnone ⊢
    rcases h : stepEvent s e with ⟨fs, s1⟩ | ⟨fs, s1, r⟩
    · simp only [h] at hnone ⊢
      have := ih s1 hnone
      simp only [this, stepEvent_cont_receivedUpdate s e fs s1 h, List.any_cons]
      simp [Bool.or_assoc]
    · simp [h] at hnone

/-! ### Claim C5 -/

/-- Claim C5: a `state` event with `inProgress = false` received before
any `update` event never ends the session (the loop continues with the
state unchanged); the same event received after at least one `update`
event always ends the session with the terminal stop reason. -/
theorem c5_stale_terminal_state (es : List WsEvent) (fs : List Frame) (s' : LoopState)
    (h : runLoop initState es = (fs, s', none)) :
    (es.any isUpdateEvent = true →
      ∃ fs2 s2, stepEvent s' (WsEvent.state false) = StepOut.halt fs2 s2 StopReason.terminal) ∧
    (es.any isUpdateEvent = false →
      stepEvent s' (WsEvent.state false) = StepOut.cont [] s') := by
  have h1 : (runLoop initState es).2.2 = none := by rw [h]
  have h2 : (runLoop initState es).2.1 = s' := by rw [h]
  have hru : s'.receivedUpdate = es.any isUpdateEvent := by
    have hx := runLoop_receivedUpdate es initState h1
    rw [h2] at hx
    simpa [initState] using hx
  constructor
  · intro hany
    by_cases ht : s'.inThinkingBlock = true
    · exact ⟨[Frame.mk thinkClose true], { s' with inThinkingBlock := false },
        by simp [stepEvent, hru, hany, ht]⟩
    · exact ⟨[], s', by simp [stepEvent, hru, hany, ht]⟩
  · intro hany
    simp [stepEvent, hru, hany]

/-- Witness for C5 at a concrete run: after one `chat` update the
terminal-looking state event does end the session. -/
theorem c5_stale_terminal_state_witness :
    ∃ fs2 s2,
      stepEvent ⟨true, some SegType.chat, false, ⟨none, "hi".toList⟩, ⟨none, []⟩⟩
          (WsEvent.state false) =
        StepOut.halt fs2 s2 StopReason.terminal :=
  (c5_stale_terminal_state [chatUpdate ("hi".toList)]
    [Frame.mk ("hi".toList) false]
    ⟨true, some SegType.chat, false, ⟨none, "hi".toList⟩, ⟨none, []⟩⟩
    (by decide)).1 (by decide)

/-! ### Claim C10 -/

/-- Claim C10: every `update` event sets the `receivedUpdate` flag,
including updates whose nested buffer JSON fails to parse, whose type is
neither `chat` nor `thinking`, or whose content is empty; such events
emit no frame and leave every other part of the loop state (reconciler
records and framer fields) unchanged — yet a subsequent `state` event
with `inProgress = false` does end the session. -/
theorem c10_junk_update_sets_flag (s : LoopState) (b : BufferParse)
    (h : b = BufferParse.malformed ∨
      ∃ bt c, b = BufferParse.parsed bt c ∧ (segOfStr bt = none ∨ c = [])) :
    stepEvent s (WsEvent.update b) = StepOut.cont [] { s with receivedUpdate := true } ∧
    ∃ fs2 s2,
      stepEvent { s with receivedUpdate := true } (WsEvent.state false) =
        StepOut.halt fs2 s2 StopReason.terminal := by
  constructor
  · rcases h with rfl | ⟨bt, c, rfl, hj⟩
    · rfl
    · rcases hj with hseg | rfl
      · simp [stepEvent, hseg]
      · rcases hseg : segOfStr bt with _ | bt' <;> simp [stepEvent, hseg, segStep]
  · by_cases ht : s.inThinkingBlock = true
    · exact ⟨[Frame.mk thinkClose true],
        { s with receivedUpdate := true, inThinkingBlock := false },
        by simp [stepEvent, ht]⟩
    · exact ⟨[], { s with receivedUpdate := true }, by simp [stepEvent, ht]⟩

/-- Witness for C10 at a concrete junk update: a malformed buffer on the
initial state. -/
theorem c10_junk_update_sets_flag_witness :
    stepEvent initState (WsEvent.update BufferParse.malformed) =
      StepOut.cont [] { initState with receivedUpdate := true } ∧
    ∃ fs2 s2,
      stepEvent { initState with receivedUpdate := true } (WsEvent.state false) =
        StepOut.halt fs2 s2 StopReason.terminal :=
  c10_junk_update_sets_flag initState BufferParse.malformed (Or.inl rfl)

/-! ### Reconciler lemmas (claims C1, C2, C8) -/

theorem segOfStr_chatT : segOfStr chatT = some SegType.chat := by decide

theorem segOfStr_thinkingT : segOfStr thinkingT = some SegType.thinking := by decide

theorem stepEvent_chatUpdate (s : LoopState) (c : Str) :
    stepEvent s (chatUpdate c) =
      StepOut.cont (segStep { s with receivedUpdate := true } SegType.chat c).1
        (segStep { s with receivedUpdate := true } SegType.chat c).2 := by
  simp [stepEvent, chatUpdate, segOfStr_chatT]

theorem markerPhase_steady (s : LoopState) (bt : SegType)
    (hl : s.lastBufferType = some bt) : markerPhase s bt = ([], s) := by
  unfold markerPhase
  rw [if_neg]
  simp [hl]

theorem segStep_chat_steady (s : LoopState) (c : Str) (hc : c ≠ [])
    (hl : s.lastBufferType = some SegType.chat) :
    segStep s SegType.chat c =
      ((if (reconcile s.chatRec c).1 = [] then []
        else [Frame.mk (reconcile s.chatRec c).1 false]),
       { s with chatRec := (reconcile s.chatRec c).2 }) := by
  unfold segStep
  rw [if_neg hc, markerPhase_steady s SegType.chat hl]
  simp [getRec, setRec]

theorem reconcile_first (c : Str) : reconcile ⟨none, []⟩ c = (c, ⟨none, c⟩) := by
  simp [reconcile]

theorem reconcile_snapshot_extend (r : RecState) (t : Str) (hp : r.prev ≠ [])
    (hm : r.mode = none ∨ r.mode = some Mode.snapshot) :
    reconcile r (r.prev ++ t) = (t, ⟨some Mode.snapshot, r.prev ++ t⟩) := by
  obtain ⟨m, p⟩ := r
  rcases hm with rfl | rfl
  · simp [reconcile, hp, List.prefix_append, List.drop_left]
  · simp [reconcile, List.drop_left]

theorem reconcile_to_delta (p c : Str) (hp : p ≠ []) (hnp : ¬p <+: c) :
    reconcile ⟨none, p⟩ c = (c, ⟨some Mode.delta, p ++ c⟩) := by
  simp [reconcile, hp, hnp]

theorem reconcile_delta (r : RecState) (c : Str) (hm : r.mode = some Mode.delta) :
    reconcile r c = (c, ⟨some Mode.delta, r.prev ++ c⟩) := by
  obtain ⟨m, p⟩ := r
  simp only at hm
  subst hm
  simp [reconcile]

theorem growingChain_cons (a b : Str) (r : List Str) :
    growingChain (a :: b :: r) =
      ((decide (a <+: b) && decide (a ≠ b)) && growingChain (b :: r)) := rfl

theorem snapRun (cs : List Str) : ∀ s : LoopState,
    s.lastBufferType = some SegType.chat →
    s.inThinkingBlock = false →
    s.chatRec.prev ≠ [] →
    (s.chatRec.mode = none ∨ s.chatRec.mode = some Mode.snapshot) →
    growingChain (s.chatRec.prev :: cs) = true →
    (runLoop s (cs.map chatUpdate)).2.2 = none ∧
    s.chatRec.prev ++ framesText (runLoop s (cs.map chatUpdate)).1 =
      (s.chatRec.prev :: cs).getLastD [] ∧
    ((runLoop s (cs.map chatUpdate)).2.1).chatRec.mode =
      (if cs = [] then s.chatRec.mode else some Mode.snapshot) := by
  induction cs with
  | nil =>
    intro s _ _ _ _ _
    simp [runLoop, framesText]
  | cons c cs ih =>
    intro s h1 h2 h3 h4 h5
    rw [growingChain_cons, Bool.and_eq_true, Bool.and_eq_true] at h5
    obtain ⟨⟨hpre, hne⟩, hchain⟩ := h5
    rw [decide_eq_true_eq] at hpre hne
    obtain ⟨t, hct⟩ := hpre
    subst hct
    have ht : t ≠ [] := by
      intro h
      subst h
      simp at hne
    have hstep : stepEvent s (chatUpdate (s.chatRec.prev ++ t)) =
        StepOut.cont [Frame.mk t false]
          { s with receivedUpdate := true,
                   chatRec := ⟨some Mode.snapshot, s.chatRec.prev ++ t⟩ } := by
      rw [stepEvent_chatUpdate]
      rw [segStep_chat_steady _ _ (by simp [h3]) (by simpa using h1)]
      rw [show ({ s with receivedUpdate := true } : LoopState).chatRec = s.chatRec from rfl]
      rw [reconcile_snapshot_extend s.chatRec t h3 h4]
      simp [ht]
    rw [List.map_cons, runLoop_cons, hstep]
    have ihh := ih { s with receivedUpdate := true,
                            chatRec := ⟨some Mode.snapshot, s.chatRec.prev ++ t⟩ }
      (by simpa using h1) (by simpa using h2)
      (by simp [h3]) (by simp) (by simpa using hchain)
    obtain ⟨ih1, ih2, ih3⟩ := ihh
    refine ⟨by simpa using ih1, ?_, ?_⟩
    · rw [List.getLastD_cons, List.getLastD_cons]
      rw [List.getLastD_cons] at ih2
      simp only [framesText_append, framesText_cons, framesText_nil] at ih2 ⊢
      simpa using ih2
    · rcases cs with _ | ⟨c2, cs2⟩
      · simpa using ih3
      · simpa using ih3

theorem growingChain_single (a : Str) : growingChain [a] = true := rfl

theorem stepEvent_first_chat (c : Str) (hc : c ≠ []) :
    stepEvent initState (chatUpdate c) =
      StepOut.cont [Frame.mk c false]
        ⟨true, some SegType.chat, false, ⟨none, c⟩, ⟨none, []⟩⟩ := by
  rw [stepEvent_chatUpdate]
  simp [segStep, markerPhase, initState, getRec, setRec, reconcile, hc]

/-! ### Claim C1 -/

/-- Claim C1: for a sequence of non-empty `chat` updates whose contents
grow strictly and prefix-compatibly, the reconciler is in snapshot mode
right after the second event, and the concatenation of all emitted delta
frames equals the content of the final event exactly. -/
theorem c1_snapshot_settles (c1 c2 : Str) (rest : List Str)
    (h1 : c1 ≠ [])
    (hchain : growingChain (c1 :: c2 :: rest) = true) :
    ((runLoop initState ([c1, c2].map chatUpdate)).2.1).chatRec.mode = some Mode.snapshot ∧
    framesText (runLoop initState ((c1 :: c2 :: rest).map chatUpdate)).1 =
      (c1 :: c2 :: rest).getLastD [] := by
  have hchain' := hchain
  rw [growingChain_cons, Bool.and_eq_true] at hchain'
  obtain ⟨hchk, _⟩ := hchain'
  rw [Bool.and_eq_true, decide_eq_true_eq, decide_eq_true_eq] at hchk
  have hstep := stepEvent_first_chat c1 h1
  constructor
  · rw [show ([c1, c2].map chatUpdate) = chatUpdate c1 :: [c2].map chatUpdate from rfl]
    rw [runLoop_cons, hstep]
    have hg := snapRun [c2] ⟨true, some SegType.chat, false, ⟨none, c1⟩, ⟨none, []⟩⟩
      rfl rfl h1 (Or.inl rfl)
      (by rw [growingChain_cons]; simp [hchk.1, hchk.2, growingChain_single])
    obtain ⟨_, _, g3⟩ := hg
    simpa using g3
  · rw [show ((c1 :: c2 :: rest).map chatUpdate)
        = chatUpdate c1 :: (c2 :: rest).map chatUpdate from rfl]
    rw [runLoop_cons, hstep]
    have hg := snapRun (c2 :: rest) ⟨true, some SegType.chat, false, ⟨none, c1⟩, ⟨none, []⟩⟩
      rfl rfl h1 (Or.inl rfl) (by simpa using hchain)
    obtain ⟨_, g2, _⟩ := hg
    simp only [framesText_append, framesText_cons, framesText_nil]
    simpa using g2

/-- Witness for C1 at the concrete chain `"a"`, `"ab"`, `"abc"`. -/
theorem c1_snapshot_settles_witness :
    ((runLoop initState (["a".toList, "ab".toList].map chatUpdate)).2.1).chatRec.mode
        = some Mode.snapshot ∧
    framesText
        (runLoop initState
          (("a".toList :: "ab".toList :: ["abc".toList]).map chatUpdate)).1 =
      ("a".toList :: "ab".toList :: ["abc".toList]).getLastD [] :=
  c1_snapshot_settles ("a".toList) ("ab".toList) ["abc".toList] (by decide) (by decide)

theorem deltaRun (cs : List Str) : ∀ s : LoopState,
    s.lastBufferType = some SegType.chat →
    s.inThinkingBlock = false →
    s.chatRec.mode = some Mode.delta →
    (∀ c ∈ cs, c ≠ []) →
    (runLoop s (cs.map chatUpdate)).2.2 = none ∧
    framesText (runLoop s (cs.map chatUpdate)).1 = cs.flatten ∧
    ((runLoop s (cs.map chatUpdate)).2.1).chatRec.mode = some Mode.delta := by
  induction cs with
  | nil =>
    intro s _ _ h3 _
    simp [runLoop, framesText, h3]
  | cons c cs ih =>
    intro s h1 h2 h3 h4
    have hc : c ≠ [] := h4 c (by simp)
    have hstep : stepEvent s (chatUpdate c) =
        StepOut.cont [Frame.mk c false]
          { s with receivedUpdate := true,
                   chatRec := ⟨some Mode.delta, s.chatRec.prev ++ c⟩ } := by
      rw [stepEvent_chatUpdate]
      rw [segStep_chat_steady _ _ hc (by simpa using h1)]
      rw [show ({ s with receivedUpdate := true } : LoopState).chatRec = s.chatRec from rfl]
      rw [reconcile_delta s.chatRec c h3]
      simp [hc]
    rw [List.map_cons, runLoop_cons, hstep]
    have ihh := ih { s with receivedUpdate := true,
                            chatRec := ⟨some Mode.delta, s.chatRec.prev ++ c⟩ }
      (by simpa using h1) (by simpa using h2) rfl
      (fun x hx => h4 x (by simp [hx]))
    obtain ⟨ih1, ih2, ih3⟩ := ihh
    refine ⟨by simpa using ih1, ?_, by simpa using ih3⟩
    simp only [framesText_append, framesText_cons, framesText_nil, List.flatten_cons]
    simp [ih2]

/-! ### Claim C2 -/

/-- Claim C2: for a sequence of non-empty `chat` updates whose second
content does not start with the first, the reconciler is in delta mode
right after the second event, and the concatenation of all emitted delta
frames equals the concatenation of the raw event contents. -/
theorem c2_delta_settles (c1 c2 : Str) (rest : List Str)
    (h1 : c1 ≠ []) (h2 : c2 ≠ []) (hr : ∀ c ∈ rest, c ≠ [])
    (hnp : ¬c1 <+: c2) :
    ((runLoop initState ([c1, c2].map chatUpdate)).2.1).chatRec.mode = some Mode.delta ∧
    framesText (runLoop initState ((c1 :: c2 :: rest).map chatUpdate)).1 =
      (c1 :: c2 :: rest).flatten := by
  have hstep1 := stepEvent_first_chat c1 h1
  have hstep2 : stepEvent ⟨true, some SegType.chat, false, ⟨none, c1⟩, ⟨none, []⟩⟩
      (chatUpdate c2) =
      StepOut.cont [Frame.mk c2 false]
        ⟨true, some SegType.chat, false, ⟨some Mode.delta, c1 ++ c2⟩, ⟨none, []⟩⟩ := by
    rw [stepEvent_chatUpdate]
    rw [segStep_chat_steady _ _ h2 rfl]
    rw [reconcile_to_delta c1 c2 h1 hnp]
    simp [h2]
  constructor
  · rw [show ([c1, c2].map chatUpdate) = chatUpdate c1 :: chatUpdate c2 :: [] from rfl]
    rw [runLoop_cons_cont _ _ _ _ _ hstep1, runLoop_cons_cont _ _ _ _ _ hstep2]
    simp [runLoop]
  · rw [show ((c1 :: c2 :: rest).map chatUpdate)
        = chatUpdate c1 :: chatUpdate c2 :: rest.map chatUpdate from rfl]
    rw [runLoop_cons_cont _ _ _ _ _ hstep1, runLoop_cons_cont _ _ _ _ _ hstep2]
    have hd := deltaRun rest
      ⟨true, some SegType.chat, false, ⟨some Mode.delta, c1 ++ c2⟩, ⟨none, []⟩⟩
      rfl rfl rfl hr
    obtain ⟨_, d2, _⟩ := hd
    simp only [framesText_append, framesText_cons, framesText_nil, List.flatten_cons]
    simp [d2]

/-- Witness for C2 at the concrete contents `"ab"`, `"x"`, `"y"`. -/
theorem c2_delta_settles_witness :
    ((runLoop initState (["ab".toList, "x".toList].map chatUpdate)).2.1).chatRec.mode
        = some Mode.delta ∧
    framesText
        (runLoop initState
          (("ab".toList :: "x".toList :: ["y".toList]).map chatUpdate)).1 =
      ("ab".toList :: "x".toList :: ["y".toList]).flatten :=
  c2_delta_settles ("ab".toList) ("x".toList) ["y".toList]
    (by decide) (by decide) (by decide) (by decide)

/-! ### Claim C8 -/

theorem getRec_receivedUpdate_set (s : LoopState) (bt : SegType) :
    getRec { s with receivedUpdate := true } bt = getRec s bt := by
  cases bt <;> rfl

theorem getRec_inThinkingBlock_set (s : LoopState) (b : Bool) (bt : SegType) :
    getRec { s with inThinkingBlock := b } bt = getRec s bt := by
  cases bt <;> rfl

theorem reconcile_modeKept (r : RecState) (c : Str) (m : Mode)
    (h : r.mode = some m) : ((reconcile r c).2).mode = some m := by
  obtain ⟨m0, p⟩ := r
  simp only at h
  subst h
  cases m <;> simp [reconcile]

theorem segStep_modeKept (s : LoopState) (bt2 : SegType) (c : Str) (bt : SegType) (m : Mode)
    (h : (getRec s bt).mode = some m) :
    (getRec (segStep s bt2 c).2 bt).mode = some m := by
  unfold segStep
  split
  · exact h
  · by_cases hb : bt = bt2
    · subst hb
      simp only [getRec_setRec_same]
      exact reconcile_modeKept _ _ m (by rw [getRec_markerPhase]; exact h)
    · rw [getRec_setRec_other _ _ _ _ hb, getRec_markerPhase]
      exact h

theorem stepEvent_cont_modeKept (s : LoopState) (e : WsEvent) (fs : List Frame)
    (s1 : LoopState) (bt : SegType) (m : Mode)
    (hstep : stepEvent s e = StepOut.cont fs s1)
    (h : (getRec s bt).mode = some m) : (getRec s1 bt).mode = some m := by
  cases e with
  | close => simp [stepEvent] at hstep
  | error => simp [stepEvent] at hstep
  | otherMsg =>
    simp [stepEvent] at hstep
    rw [← hstep.2]
    exact h
  | update b =>
    cases b with
    | malformed =>
      simp [stepEvent] at hstep
      rw [← hstep.2, getRec_receivedUpdate_set]
      exact h
    | parsed btStr content =>
      rcases hseg : segOfStr btStr with _ | bt2 <;> simp [stepEvent, hseg] at hstep
      · rw [← hstep.2, getRec_receivedUpdate_set]
        exact h
      · rw [← hstep.2]
        exact segStep_modeKept _ bt2 content bt m (by rw [getRec_receivedUpdate_set]; exact h)
  | state ip =>
    by_cases hc : ip = false ∧ s.receivedUpdate = true
    · by_cases ht : s.inThinkingBlock = true <;> simp [stepEvent, hc, ht] at hstep
    · simp [stepEvent, hc] at hstep
      rw [← hstep.2]
      exact h

theorem stepEvent_halt_modeKept (s : LoopState) (e : WsEvent) (fs : List Frame)
    (s1 : LoopState) (r : StopReason) (bt : SegType) (m : Mode)
    (hstep : stepEvent s e = StepOut.halt fs s1 r)
    (h : (getRec s bt).mode = some m) : (getRec s1 bt).mode = some m := by
  cases e with
  | close =>
    simp [stepEvent] at hstep
    rw [← hstep.2.1]
    exact h
  | error =>
    simp [stepEvent] at hstep
    rw [← hstep.2.1]
    exact h
  | otherMsg => simp [stepEvent] at hstep
  | update b =>
    cases b with
    | malformed => simp [stepEvent] at hstep
    | parsed btStr content =>
      rcases hseg : segOfStr btStr with _ | bt2 <;> simp [stepEvent, hseg] at hstep
  | state ip =>
    by_cases hc : ip = false ∧ s.receivedUpdate = true
    · by_cases ht : s.inThinkingBlock = true <;> simp [stepEvent, hc, ht] at hstep
      · rw [← hstep.2.1]
        cases bt <;> simpa [getRec] using h
      · rw [← hstep.2.1]
        exact h
    · simp [stepEvent, hc] at hstep

theorem runLoop_modeKept (es : List WsEvent) : ∀ (s : LoopState) (bt : SegType) (m : Mode),
    (getRec s bt).mode = some m →
    (getRec ((runLoop s es).2.1) bt).mode = some m := by
  induction es with
  | nil =>
    intro s bt m h
    simpa [runLoop] using h
  | cons e es ih =>
    intro s bt m h
    rw [runLoop_cons]
    rcases hs : stepEvent s e with ⟨fs, s1⟩ | ⟨fs, s1, r⟩
    · exact ih s1 bt m (stepEvent_cont_modeKept s e fs s1 bt m hs h)
    · exact stepEvent_halt_modeKept s e fs s1 r bt m hs h

theorem reconcile_snapshot_prev_length (r : RecState) (c : Str)
    (hm : r.mode = some Mode.snapshot) (hp : r.prev <+: c) :
    r.prev.length ≤ ((reconcile r c).2).prev.length := by
  obtain ⟨m, p⟩ := r
  simp only at hm hp
  subst hm
  obtain ⟨t, rfl⟩ := hp
  simp [reconcile]

/-- Claim C8 counterexample: the claim asserts that under snapshot mode
`previousContent` is never truncated, but after the `chat` contents
`"ab"`, `"abc"` (snapshot mode, `previousContent = "abc"`) a further
update with content `"x"` overwrites `previousContent` with `"x"`,
shrinking it from length 3 to length 1 while the mode stays snapshot. -/
theorem c8_counterexample :
    ¬ (∀ (es : List WsEvent) (e : WsEvent),
        ((runLoop initState es).2.1).chatRec.mode = some Mode.snapshot →
        ((runLoop initState es).2.1).chatRec.prev.length ≤
          ((runLoop initState (es ++ [e])).2.1).chatRec.prev.length) := by
  intro h
  exact absurd
    (h [chatUpdate ("ab".toList), chatUpdate ("abc".toList)]
      (chatUpdate ("x".toList)) (by decide))
    (by decide)

/-- Claim C8 (amended): once `mode` is set to snapshot or delta for a
segment type it never changes again for the rest of the session; and
while `mode` is snapshot, an update whose content extends the recorded
`previousContent` (the snapshot-consistent case) never truncates it —
the record is replaced by the longer content.  (An update whose content
does not extend the recorded content overwrites the record and may
shrink it, as the counterexample shows.) -/
theorem c8_amended_sticky_mode (s : LoopState) (es : List WsEvent)
    (bt : SegType) (m : Mode) (r : RecState) (c : Str)
    (h1 : (getRec s bt).mode = some m)
    (h2 : r.mode = some Mode.snapshot) (h3 : r.prev <+: c) :
    (getRec ((runLoop s es).2.1) bt).mode = some m ∧
    r.prev.length ≤ ((reconcile r c).2).prev.length :=
  ⟨runLoop_modeKept es s bt m h1, reconcile_snapshot_prev_length r c h2 h3⟩

/-- Witness for the amended C8 at a concrete snapshot-mode state. -/
theorem c8_amended_sticky_mode_witness :
    (getRec ((runLoop ⟨true, some SegType.chat, false,
        ⟨some Mode.snapshot, "a".toList⟩, ⟨none, []⟩⟩
        [chatUpdate ("ab".toList)]).2.1) SegType.chat).mode = some Mode.snapshot ∧
    ("a".toList : Str).length ≤
      ((reconcile ⟨some Mode.snapshot, "a".toList⟩ ("ab".toList)).2).prev.length :=
  c8_amended_sticky_mode
    ⟨true, some SegType.chat, false, ⟨some Mode.snapshot, "a".toList⟩, ⟨none, []⟩⟩
    [chatUpdate ("ab".toList)] SegType.chat Mode.snapshot
    ⟨some Mode.snapshot, "a".toList⟩ ("ab".toList)
    (by decide) (by decide) (by decide)

/-! ### Claim C3 -/

theorem inThinkingBlock_setRec (s : LoopState) (bt : SegType) (r : RecState) :
    (setRec s bt r).inThinkingBlock = s.inThinkingBlock := by
  cases bt <;> rfl

theorem markerStep_nonMarker (b : Bool) (c : Str) :
    markerStep (some b) (Frame.mk c false) = some b := by
  simp [markerStep]

theorem markerPhase_scan (s : LoopState) (bt : SegType) :
    markerScanB s.inThinkingBlock (markerPhase s bt).1 =
      some ((markerPhase s bt).2).inThinkingBlock := by
  have hne1 : thinkClose ≠ thinkOpen := by decide
  unfold markerPhase
  split
  · split
    · rename_i ht
      split <;>
        simp [markerScanB, markerStep, ht, hne1]
    · rename_i ht
      simp only [Bool.not_eq_true] at ht
      split <;>
        simp [markerScanB, markerStep, ht]
  · simp [markerScanB]

theorem segStep_scan (s : LoopState) (bt : SegType) (c : Str) :
    markerScanB s.inThinkingBlock (segStep s bt c).1 =
      some ((segStep s bt c).2).inThinkingBlock := by
  unfold segStep
  split
  · simp [markerScanB]
  · simp only [inThinkingBlock_setRec]
    rw [markerScanB, List.foldl_append]
    rw [show (markerPhase s bt).1.foldl markerStep (some s.inThinkingBlock)
        = markerScanB s.inThinkingBlock (markerPhase s bt).1 from rfl]
    rw [markerPhase_scan]
    split
    · simp [markerStep]
    · simp [markerStep]

theorem markerScanB_append_some (b b' : Bool) (xs ys : List Frame)
    (h : markerScanB b xs = some b') :
    markerScanB b (xs ++ ys) = markerScanB b' ys := by
  rw [markerScanB, List.foldl_append]
  rw [show xs.foldl markerStep (some b) = markerScanB b xs from rfl, h]
  rfl

theorem stepEvent_cont_scan (s : LoopState) (e : WsEvent) (fs : List Frame)
    (s1 : LoopState) (hstep : stepEvent s e = StepOut.cont fs s1) :
    markerScanB s.inThinkingBlock fs = some s1.inThinkingBlock := by
  cases e with
  | close => simp [stepEvent] at hstep
  | error => simp [stepEvent] at hstep
  | otherMsg =>
    simp [stepEvent] at hstep
    obtain ⟨rfl, rfl⟩ := hstep
    simp [markerScanB]
  | update b =>
    cases b with
    | malformed =>
      simp [stepEvent] at hstep
      obtain ⟨rfl, rfl⟩ := hstep
      simp [markerScanB]
    | parsed btStr content =>
      rcases hseg : segOfStr btStr with _ | bt2 <;> simp [stepEvent, hseg] at hstep
      · obtain ⟨rfl, rfl⟩ := hstep
        simp [markerScanB]
      · obtain ⟨rfl, rfl⟩ := hstep
        exact segStep_scan { s with receivedUpdate := true } bt2 content
  | state ip =>
    by_cases hc : ip = false ∧ s.receivedUpdate = true
    · by_cases ht : s.inThinkingBlock = true <;> simp [stepEvent, hc, ht] at hstep
    · simp [stepEvent, hc] at hstep
      obtain ⟨rfl, rfl⟩ := hstep
      simp [markerScanB]

theorem stepEvent_halt_scan (s : LoopState) (e : WsEvent) (fs : List Frame)
    (s1 : LoopState) (r : StopReason)
    (hstep : stepEvent s e = StepOut.halt fs s1 r) :
    markerScanB s.inThinkingBlock fs = some s1.inThinkingBlock ∧
    (r = StopReason.terminal → s1.inThinkingBlock = false) := by
  have hne1 : thinkClose ≠ thinkOpen := by decide
  cases e with
  | close =>
    simp [stepEvent] at hstep
    obtain ⟨rfl, rfl, rfl⟩ := hstep
    exact ⟨by simp [markerScanB], fun h => absurd h (by decide)⟩
  | error =>
    simp [stepEvent] at hstep
    obtain ⟨rfl, rfl, rfl⟩ := hstep
    exact ⟨by simp [markerScanB], fun h => absurd h (by decide)⟩
  | otherMsg => simp [stepEvent] at hstep
  | update b =>
    cases b with
    | malformed => simp [stepEvent] at hstep
    | parsed btStr content =>
      rcases hseg : segOfStr btStr with _ | bt2 <;> simp [stepEvent, hseg] at hstep
  | state ip =>
    by_cases hc : ip = false ∧ s.receivedUpdate = true
    · by_cases ht : s.inThinkingBlock = true <;> simp [stepEvent, hc, ht] at hstep
      · obtain ⟨rfl, rfl, rfl⟩ := hstep
        refine ⟨by simp [markerScanB, markerStep, ht, hne1], fun _ => rfl⟩
      · simp only [Bool.not_eq_true] at ht
        obtain ⟨rfl, rfl, rfl⟩ := hstep
        exact ⟨by simp [markerScanB], fun _ => ht⟩
    · simp [stepEvent, hc] at hstep

theorem runLoop_scan (es : List WsEvent) : ∀ s : LoopState,
    markerScanB s.inThinkingBlock (runLoop s es).1 =
      some ((runLoop s es).2.1).inThinkingBlock ∧
    ((runLoop s es).2.2 = some StopReason.terminal →
      ((runLoop s es).2.1).inThinkingBlock = false) := by
  induction es with
  | nil =>
    intro s
    simp [runLoop, markerScanB]
  | cons e es ih =>
    intro s
    rw [runLoop_cons]
    rcases hs : stepEvent s e with ⟨fs1, s1⟩ | ⟨fs1, s1, r1⟩
    · simp only
      obtain ⟨ih1, ih2⟩ := ih s1
      constructor
      · rw [markerScanB_append_some s.inThinkingBlock s1.inThinkingBlock _ _
          (stepEvent_cont_scan s e fs1 s1 hs)]
        exact ih1
      · exact ih2
    · simp only
      obtain ⟨g1, g2⟩ := stepEvent_halt_scan s e fs1 s1 r1 hs
      refine ⟨g1, fun h => ?_⟩
      exact g2 (by injection h)

/-- Claim C3 counterexample: the claim asserts marker balance for every
terminated session, including termination by socket close or error; but
on the event sequence `thinking` update `"x"` then socket close, the
loop terminates having emitted an open marker with no matching close
marker — neither sink closes the thinking block on a close/error break. -/
theorem c3_counterexample :
    ¬ (∀ (events : List WsEvent),
        ((runLoop initState events).2.2).isSome = true →
        markerScanB false (runLoop initState events).1 = some false) := by
  intro h
  exact absurd
    (h [thinkUpdate ("x".toList), WsEvent.close] (by decide))
    (by decide)

/-- Claim C3 (amended): for every event sequence whose session terminates
through the terminal `state` signal, the marker frames emitted by the
consumption loop are balanced — every `<think>` open-marker frame is
followed by a matching `</think>` close-marker frame before the session
finalizes.  (A session terminated by a socket close or error event can
leave the last open marker unmatched, as the counterexample shows; both
sinks render these same loop frames.) -/
theorem c3_amended_balanced_on_terminal (events : List WsEvent)
    (fs : List Frame) (s' : LoopState)
    (h : runLoop initState events = (fs, s', some StopReason.terminal)) :
    markerScanB false fs = some false := by
  obtain ⟨g1, g2⟩ := runLoop_scan events initState
  rw [h] at g1 g2
  simp only at g1 g2
  rw [show (initState.inThinkingBlock) = false from rfl] at g1
  rw [g1, g2 trivial]

/-- Witness for the amended C3 at a concrete terminal run with one
thinking block. -/
theorem c3_amended_balanced_on_terminal_witness :
    markerScanB false
      [Frame.mk thinkOpen true, Frame.mk ("p".toList) false,
       Frame.mk thinkClose true, Frame.mk ("a".toList) false] = some false :=
  c3_amended_balanced_on_terminal
    [thinkUpdate ("p".toList), chatUpdate ("a".toList), WsEvent.state false]
    [Frame.mk thinkOpen true, Frame.mk ("p".toList) false,
     Frame.mk thinkClose true, Frame.mk ("a".toList) false]
    ⟨true, some SegType.chat, false, ⟨none, "a".toList⟩, ⟨none, "p".toList⟩⟩
    (by decide)

/-! ### Claim C4 -/

theorem markerPhaseNS_eq (s : LoopState) (bt : SegType) :
    markerPhaseNS s bt = (framesText (markerPhase s bt).1, (markerPhase s bt).2) := by
  by_cases h3 : bt = SegType.thinking
  · subst h3
    by_cases h1 : some SegType.thinking ≠ s.lastBufferType <;>
    by_cases h2 : s.inThinkingBlock = true <;>
    simp [markerPhase, markerPhaseNS, h1, h2, framesText]
  · by_cases h1 : some bt ≠ s.lastBufferType <;>
    by_cases h2 : s.inThinkingBlock = true <;>
    simp [markerPhase, markerPhaseNS, h1, h2, h3, framesText]

theorem segStepNS_eq (s : LoopState) (bt : SegType) (c : Str) :
    segStepNS s bt c = (framesText (segStep s bt c).1, (segStep s bt c).2) := by
  by_cases hc : c = []
  · simp [segStep, segStepNS, hc, framesText]
  · simp only [segStep, segStepNS, hc, if_false, markerPhaseNS_eq]
    rw [framesText_append]
    by_cases hd : (reconcile (getRec (markerPhase s bt).2 bt) c).1 = [] <;>
      simp [hd, framesText]

theorem stepEventNS_eq (s : LoopState) (e : WsEvent) :
    stepEventNS s e =
      (match stepEvent s e with
       | StepOut.cont fs s1 => StepOutNS.cont (framesText fs) s1
       | StepOut.halt fs s1 r => StepOutNS.halt (framesText fs) s1 r) := by
  cases e with
  | close => rfl
  | error => rfl
  | otherMsg => rfl
  | update b =>
    cases b with
    | malformed => rfl
    | parsed btStr content =>
      rcases hseg : segOfStr btStr with _ | bt2 <;>
        simp [stepEventNS, stepEvent, hseg, segStepNS_eq, framesText]
  | state ip =>
    by_cases hip : ip = false
    · by_cases hru : s.receivedUpdate = true
      · by_cases ht : s.inThinkingBlock = true <;>
          simp [stepEventNS, stepEvent, hip, hru, ht, framesText]
      · simp [stepEventNS, stepEvent, hip, hru, framesText]
    · simp [stepEventNS, stepEvent, hip, framesText]

theorem runLoopNS_eq (es : List WsEvent) : ∀ s : LoopState,
    runLoopNS s es =
      (framesText (runLoop s es).1, (runLoop s es).2.1, (runLoop s es).2.2) := by
  induction es with
  | nil =>
    intro s
    simp [runLoop, runLoopNS, framesText]
  | cons e es ih =>
    intro s
    rw [runLoop_cons, runLoopNS_cons, stepEventNS_eq]
    rcases hs : stepEvent s e with ⟨fs1, s1⟩ | ⟨fs1, s1, r1⟩
    · dsimp only
      rw [ih s1, framesText_append]
    · rfl

theorem flatten_nonControl (rid model : Str) (fs : List Frame) (tail : List SSEItem)
    (htail : nonControlTexts tail = []) :
    (nonControlTexts
      ((fs.map (fun f => createSSEChunk rid model f.content none)) ++ tail)).flatten =
      framesText fs := by
  induction fs with
  | nil => simp [htail, framesText]
  | cons f fs ih =>
    simp only [createSSEChunk] at ih ⊢
    by_cases hf : f.content = [] <;>
      simp [nonControlTexts, hf, framesText_cons, ih]

/-- Claim C4: for every backend event sequence (consumed after a
successful socket open in both sinks), the string the aggregate sink
returns equals the concatenation of the content texts of all non-control
frames — the delta and marker chunks, excluding the priming chunk, the
finish chunk and the `[DONE]` sentinel — that the event-stream sink
emits for that same sequence. -/
theorem c4_round_trip (requestId model : Str) (events : List WsEvent) :
    nonStreamChatResult none none events =
      Except.ok
        ((nonControlTexts (streamChatItems requestId model none events)).flatten) := by
  rw [show nonStreamChatResult none none events
      = Except.ok (runLoopNS initState events).1 from rfl]
  rw [runLoopNS_eq]
  rw [show streamChatItems requestId model none events
      = createSSEChunk requestId model [] none ::
          (((runLoop initState events).1.map
            (fun f => createSSEChunk requestId model f.content none)) ++
            [createSSEChunk requestId model [] (some stopText), SSEItem.done]) from rfl]
  rw [show nonControlTexts (createSSEChunk requestId model [] none ::
        (((runLoop initState events).1.map
          (fun f => createSSEChunk requestId model f.content none)) ++
          [createSSEChunk requestId model [] (some stopText), SSEItem.done]))
      = nonControlTexts
          (((runLoop initState events).1.map
            (fun f => createSSEChunk requestId model f.content none)) ++
            [createSSEChunk requestId model [] (some stopText), SSEItem.done]) from
    by simp [nonControlTexts, createSSEChunk]]
  rw [flatten_nonControl requestId model _ _ (by simp [nonControlTexts, createSSEChunk])]

/-! ### Claim C6 -/

/-- Claim C6 counterexample: the claim asserts that a socket close (or
error) before any terminal state signal makes `nonStreamChat` reject;
but on the sequence `chat` update `"A"` then socket close, the loop
breaks on the close event and the function resolves normally with the
partial string `"A"`. -/
theorem c6_counterexample :
    ¬ (∀ (events : List WsEvent) (out : Str) (s' : LoopState),
        runLoopNS initState events = (out, s', some StopReason.closed) →
        ∃ msg, nonStreamChatResult none none events = Except.error msg) := by
  intro h
  obtain ⟨msg, hm⟩ := h [chatUpdate ("A".toList), WsEvent.close] ("A".toList)
    ⟨true, some SegType.chat, false, ⟨none, "A".toList⟩, ⟨none, []⟩⟩ (by decide)
  have hv : nonStreamChatResult none none [chatUpdate ("A".toList), WsEvent.close]
      = Except.ok ("A".toList) := by rfl
  rw [hv] at hm
  exact Except.noConfusion hm

/-- Claim C6 (amended): `nonStreamChat` rejects (wrapping the cause in
its `处理请求失败` error) exactly for failures raised before the message
loop — the socket erroring before reaching its open state, or the
awaited trigger `fetch` throwing.  Once the loop is consuming, a socket
close or error event merely breaks the loop and the accumulated partial
string is resolved normally. -/
theorem c6_amended_rejects_pre_loop (e : Str) (events : List WsEvent)
    (out : Str) (s' : LoopState) (r : Option StopReason) :
    nonStreamChatResult (some e) none events = Except.error (failText ++ e) ∧
    nonStreamChatResult none (some e) events = Except.error (failText ++ e) ∧
    (runLoopNS initState events = (out, s', r) →
      (r = some StopReason.closed ∨ r = some StopReason.errored) →
      nonStreamChatResult none none events = Except.ok out) := by
  refine ⟨rfl, rfl, fun h _ => ?_⟩
  rw [show nonStreamChatResult none none events
      = Except.ok (runLoopNS initState events).1 from rfl, h]

/-- Witness for the amended C6 at a concrete run ending in a socket
error event. -/
theorem c6_amended_rejects_pre_loop_witness :
    nonStreamChatResult none none [chatUpdate ("B".toList), WsEvent.error]
      = Except.ok ("B".toList) :=
  (c6_amended_rejects_pre_loop ("x".toList) [chatUpdate ("B".toList), WsEvent.error]
    ("B".toList) ⟨true, some SegType.chat, false, ⟨none, "B".toList⟩, ⟨none, []⟩⟩
    (some StopReason.errored)).2.2 (by decide) (Or.inr rfl)

/-! ### Claim C7 -/

/-- Claim C7 counterexample: the claim asserts that after an unhandled
failure the remaining output is an error-content frame, then a separate
finish frame, then the sentinel — four items in total counting the
priming chunk.  The catch block of the code emits only two items: one chunk
carrying both the error text and finish_reason `"stop"`, then the
sentinel, so the emitted list has three items, not four. -/
theorem c7_counterexample :
    ¬ (∀ e : Str,
        (streamChatItems ("id".toList) ("m".toList) (some e) []).length = 4) := by
  intro h
  exact absurd (h ("boom".toList)) (by decide)

/-- Claim C7 (amended): when the socket fails before reaching its open
state (the unhandled exception path representable in this embedding —
exceptions inside the loop body are swallowed by the inner catch), the
output after the priming chunk is exactly one error-content chunk that
itself carries finish_reason `"stop"`, followed by the `data: [DONE]`
sentinel; the stream is syntactically complete, with no separate
empty finish frame. -/
theorem c7_amended_error_stream_shape (requestId model e : Str)
    (events : List WsEvent) :
    streamChatItems requestId model (some e) events =
      [createSSEChunk requestId model [] none,
       createSSEChunk requestId model (errText ++ e) (some stopText),
       SSEItem.done] := rfl

/-! ### Claim C9 -/

theorem toLower_not_upper (c : Char) :
    ¬(65 ≤ (Char.toLower c).toNat ∧ (Char.toLower c).toNat ≤ 90) := by
  unfold Char.toLower
  by_cases h : c.toNat ≥ 65 ∧ c.toNat ≤ 90
  · rw [if_pos h]
    obtain ⟨h1, h2⟩ := h
    set n := c.toNat with hn
    interval_cases n <;> decide
  · rw [if_neg h]
    omega

theorem lowerStr_ne_upper_head (s : Str) (u : Char) (t : Str)
    (h65 : 65 ≤ u.toNat) (h90 : u.toNat ≤ 90) : lowerStr s ≠ u :: t := by
  cases s with
  | nil => simp [lowerStr]
  | cons c s' =>
    intro heq
    rw [lowerStr, List.map_cons] at heq
    have hu : Char.toLower c = u := (List.cons.injEq .. ▸ heq).1
    exact toLower_not_upper c (by rw [hu]; exact ⟨h65, h90⟩)

theorem recordSet_append (r : List (Str × Str)) (k v : Str)
    (h : ∀ p ∈ r, p.1 ≠ k) : recordSet r k v = r ++ [(k, v)] := by
  have hneg : ¬(r.any (fun p => decide (p.1 = k)) = true) := by
    simp only [List.any_eq_true, decide_eq_true_eq]
    rintro ⟨p, hp, he⟩
    exact h p hp he
  unfold recordSet
  rw [if_neg hneg]

theorem mem_filterAllowedHeaders (h : List (Str × Str)) (p : Str × Str)
    (hp : p ∈ filterAllowedHeaders h) : ∃ q : Str, p.1 = lowerStr q := by
  unfold filterAllowedHeaders headersEntries at hp
  obtain ⟨hmem, _⟩ := List.mem_filter.mp hp
  obtain ⟨q, _, hq⟩ := List.mem_map.mp hmem
  exact ⟨q.1, by rw [← hq]⟩

/-- Claim C9 counterexample: the claim asserts that on a case-insensitive
name collision the value of the server-mandated header is the one sent; but
`Headers` iteration lowercases names while the mandatory keys are
mixed-case, so the object spread never overwrites anything: with a
caller header `Authorization: x` the record sent to `fetch` still holds
the entry `authorization: x` alongside `Authorization: Bearer t`. -/
theorem c9_counterexample :
    ¬ (∀ (client : List (Str × Str)) (jwt cid o : Str) (p : Str × Str),
        p ∈ triggerHeaders (some client) jwt cid o →
        lowerStr p.1 = lowerStr ("Authorization".toList) →
        p.2 = "Bearer ".toList ++ jwt) := by
  intro h
  exact absurd
    (h [("Authorization".toList, "x".toList)] ("t".toList) ("c".toList) ("o".toList)
      ("authorization".toList, "x".toList) (by decide) (by decide))
    (by decide)

/-- Claim C9 (amended): the headers record passed to the trigger `POST`
is the Header-Filter output — entries whose lowercased name is in the
allow-list or starts with an allowed beginning, names lowercased by
`Headers` iteration — followed by the four server-mandated entries
(`Authorization`, `Content-Type`, `Origin`, `Referer`) appended.  The
object spread overrides only exact key matches, and since every filtered
name is fully lowercase while the mandatory keys are mixed-case, no
override ever occurs: on a case-insensitive collision both the caller entry
and the mandatory entry are present in the record. -/
theorem c9_amended_headers_appended (client : List (Str × Str)) (jwt cid origin2 : Str) :
    triggerHeaders (some client) jwt cid origin2 =
      filterAllowedHeaders client ++
        [("Authorization".toList, "Bearer ".toList ++ jwt),
         ("Content-Type".toList, "application/json".toList),
         ("Origin".toList, origin2),
         ("Referer".toList, origin2 ++ "/".toList ++ cid)] := by
  have hF : ∀ p ∈ filterAllowedHeaders client,
      ∀ (u : Char) (t : Str), 65 ≤ u.toNat → u.toNat ≤ 90 → p.1 ≠ u :: t := by
    intro p hp u t h65 h90
    obtain ⟨q, hq⟩ := mem_filterAllowedHeaders client p hp
    rw [hq]
    exact lowerStr_ne_upper_head q u t h65 h90
  have hA : ("Authorization".toList : Str) = 'A' :: "uthorization".toList := by decide
  have hC : ("Content-Type".toList : Str) = 'C' :: "ontent-Type".toList := by decide
  have hO : ("Origin".toList : Str) = 'O' :: "rigin".toList := by decide
  have hR : ("Referer".toList : Str) = 'R' :: "eferer".toList := by decide
  have s1 : recordSet (filterAllowedHeaders client)
      ("Authorization".toList) ("Bearer ".toList ++ jwt) =
      filterAllowedHeaders client ++
        [("Authorization".toList, "Bearer ".toList ++ jwt)] :=
    recordSet_append _ _ _ (fun p hp => by
      rw [hA]; exact hF p hp 'A' _ (by decide) (by decide))
  have s2 : recordSet (filterAllowedHeaders client ++
        [("Authorization".toList, "Bearer ".toList ++ jwt)])
      ("Content-Type".toList) ("application/json".toList) =
      filterAllowedHeaders client ++
        [("Authorization".toList, "Bearer ".toList ++ jwt)] ++
        [("Content-Type".toList, "application/json".toList)] :=
    recordSet_append _ _ _ (fun p hp => by
      rcases List.mem_append.mp hp with hm | hm
      · rw [hC]; exact hF p hm 'C' _ (by decide) (by decide)
      · rw [List.mem_singleton.mp hm]
        exact (by decide : ("Authorization".toList : Str) ≠ "Content-Type".toList))
  have s3 : recordSet (filterAllowedHeaders client ++
        [("Authorization".toList, "Bearer ".toList ++ jwt)] ++
        [("Content-Type".toList, "application/json".toList)])
      ("Origin".toList) origin2 =
      filterAllowedHeaders client ++
        [("Authorization".toList, "Bearer ".toList ++ jwt)] ++
        [("Content-Type".toList, "application/json".toList)] ++
        [("Origin".toList, origin2)] :=
    recordSet_append _ _ _ (fun p hp => by
      rcases List.mem_append.mp hp with hm | hm
      · rcases List.mem_append.mp hm with hm2 | hm2
        · rw [hO]; exact hF p hm2 'O' _ (by decide) (by decide)
        · rw [List.mem_singleton.mp hm2]
          exact (by decide : ("Authorization".toList : Str) ≠ "Origin".toList)
      · rw [List.mem_singleton.mp hm]
        exact (by decide : ("Content-Type".toList : Str) ≠ "Origin".toList))
  have s4 : recordSet (filterAllowedHeaders client ++
        [("Authorization".toList, "Bearer ".toList ++ jwt)] ++
        [("Content-Type".toList, "application/json".toList)] ++
        [("Origin".toList, origin2)])
      ("Referer".toList) (origin2 ++ "/".toList ++ cid) =
      filterAllowedHeaders client ++
        [("Authorization".toList, "Bearer ".toList ++ jwt)] ++
        [("Content-Type".toList, "application/json".toList)] ++
        [("Origin".toList, origin2)] ++
        [("Referer".toList, origin2 ++ "/".toList ++ cid)] :=
    recordSet_append _ _ _ (fun p hp => by
      rcases List.mem_append.mp hp with hm | hm
      · rcases List.mem_append.mp hm with hm2 | hm2
        · rcases List.mem_append.mp hm2 with hm3 | hm3
          · rw [hR]; exact hF p hm3 'R' _ (by decide) (by decide)
          · rw [List.mem_singleton.mp hm3]
            exact (by decide : ("Authorization".toList : Str) ≠ "Referer".toList)
        · rw [List.mem_singleton.mp hm2]
          exact (by decide : ("Content-Type".toList : Str) ≠ "Referer".toList)
      · rw [List.mem_singleton.mp hm]
        exact (by decide : ("Origin".toList : Str) ≠ "Referer".toList))
  show recordSet (recordSet (recordSet (recordSet (filterAllowedHeaders client)
      ("Authorization".toList) ("Bearer ".toList ++ jwt))
      ("Content-Type".toList) ("application/json".toList))
      ("Origin".toList) origin2)
      ("Referer".toList) (origin2 ++ "/".toList ++ cid) = _
  rw [s1, s2, s3, s4]
  simp [List.append_assoc]
